import Mathlib

/-!
Shallow embedding of the OOXML worksheet patch engine
(`xlsx/app/xlsx_generator.py`, class `XLSXGenerator`).

The package is modelled as an ordered list of named parts.  Untouched part
bytes are opaque (`Content.blob`); the parts the generator parses are
modelled structurally: the workbook sheet list, the workbook relationship
table, the worksheet row/cell tree and the shared-string table XML.  XML
(de)serialization performed by lxml is injective on these models, so model
equality of a part stands for byte equality of the serialized part.

Cell values mirror the Python `Union[str, int, float]` inputs (plus `bool`,
which Python would accept and route through the string path).  A float is
represented by its decimal text form, exactly the string `str(value)`
would produce, since only that text ever reaches the XML.
-/

namespace Avion

/-- A cell value as accepted by `XLSXGenerator.generate`.  `f` carries the
decimal text that Python `str()` would print for the float. -/
inductive Value where
  | s (t : String)
  | i (n : Int)
  | f (repr : String)
  | b (v : Bool)
deriving DecidableEq

/-- Python `str()` on a bool. -/
def pyBoolStr (b : Bool) : String := if b then "True" else "False"

/-- Python `str(value)` for the supported value kinds. -/
def pyStr : Value → String
  | .s t => t
  | .i n => toString n
  | .f r => r
  | .b v => pyBoolStr v

/-- The `isinstance(value, (int, float)) and not isinstance(value, bool)`
test selecting the numeric path in `_update_cells`. -/
def isNumericNonBool : Value → Bool
  | .i _ => true
  | .f _ => true
  | _ => false

/-- A `<c>` worksheet cell: reference attribute `r`, optional type
attribute `t`, optional formula child `f`, optional value child `v`,
optional inline-string child `is`. -/
structure Cell where
  r : String
  t : Option String
  f : Option String
  v : Option String
  is : Option String
deriving DecidableEq

/-- A `<row>` element: its `r` attribute and its `<c>` children in
document order. -/
structure Row where
  r : Nat
  cells : List Cell
deriving DecidableEq

/-- ASCII `[A-Z]` as tested by the regexes in `_get_row_number` and
`_compare_cell_refs`. -/
def isUpperAZ (c : Char) : Bool := 65 ≤ c.toNat && c.toNat ≤ 90

/-- ASCII `\d`. -/
def isDigit09 (c : Char) : Bool := 48 ≤ c.toNat && c.toNat ≤ 57

/-- Decimal reading of a digit run, as Python `int()` does. -/
def digitsToNat (ds : List Char) : Nat := ds.foldl (fun a c => a * 10 + (c.toNat - 48)) 0

/-- `re.match(r"[A-Z]+(\d+)", ref)`: anchored at the start only, so
trailing characters after the digit run are accepted.  Returns the letter
run and the numeric value of the digit run. -/
def refMatch (ref : String) : Option (List Char × Nat) :=
  let letters := ref.data.takeWhile isUpperAZ
  let rest := ref.data.dropWhile isUpperAZ
  let digits := rest.takeWhile isDigit09
  if letters.isEmpty || digits.isEmpty then none
  else some (letters, digitsToNat digits)

/-- `XLSXGenerator._get_row_number`. -/
def getRowNumber (ref : String) : Except String Nat :=
  match refMatch ref with
  | some p => .ok p.2
  | none => .error ("Invalid cell reference: " ++ ref)

/-- Code-point key of a column letter run; Python compares column strings
lexicographically by code point. -/
def colKey (letters : List Char) : List Nat := letters.map Char.toNat

/-- Lexicographic strict order on code-point lists (Python `str < str`). -/
def natLexLt : List Nat → List Nat → Bool
  | _, [] => false
  | [], _ :: _ => true
  | a :: as, b :: bs => if a < b then true else if b < a then false else natLexLt as bs

/-- `XLSXGenerator._compare_cell_refs`: 0 when either reference fails the
regex, otherwise column-lexicographic then row-numeric comparison. -/
def cmpRefs (a b : String) : Int :=
  match refMatch a, refMatch b with
  | some pa, some pb =>
    if natLexLt (colKey pa.1) (colKey pb.1) then -1
    else if natLexLt (colKey pb.1) (colKey pa.1) then 1
    else (pa.2 : Int) - pb.2
  | _, _ => 0

/-- Python `list.index` (first occurrence). -/
def pyIndex : List String → String → Nat
  | [], _ => 0
  | x :: xs, s => if x = s then 0 else pyIndex xs s + 1

/-- The value-representation decision of `_update_cells` (lines 229-252):
given the value, the current shared-string table and the
`use_shared_strings` flag, produce the new `t` attribute, the text of the
new `<v>` child, and the updated table. -/
def valueRepr (val : Value) (tbl : List String) (us : Bool) :
    Option String × String × List String :=
  if isNumericNonBool val then (none, pyStr val, tbl)
  else
    let sv := pyStr val
    if us then
      if sv ∈ tbl then (some "s", toString (pyIndex tbl sv), tbl)
      else (some "s", toString tbl.length, tbl ++ [sv])
    else (some "str", sv, tbl)

/-- The per-cell body of `_update_cells`: skip if the cell has a formula,
otherwise drop the `v`/`is` children and write the new value. -/
def setCellValue (c : Cell) (val : Value) (tbl : List String) (us : Bool) :
    Cell × List String :=
  if c.f.isSome then (c, tbl)
  else
    let vr := valueRepr val tbl us
    ({ c with t := vr.1, v := some vr.2.1, is := none }, vr.2.2)

/-- A freshly created `<c>` element with only its `r` attribute. -/
def blankCell (ref : String) : Cell := ⟨ref, none, none, none, none⟩

/-- The insertion loop of `_find_or_create_cell`: place the new cell
before the first existing cell that compares greater, else append. -/
def insertCellSorted : List Cell → Cell → List Cell
  | [], nc => [nc]
  | c :: cs, nc => if cmpRefs nc.r c.r < 0 then nc :: c :: cs else c :: insertCellSorted cs nc

/-- Whether some cell of the row already has reference `ref`. -/
def hasCellRef (cs : List Cell) (ref : String) : Bool := cs.any (fun c => c.r = ref)

/-- `_find_or_create_cell`, creation part: reuse the row's cell list if the
reference exists, otherwise insert a blank cell in sorted position. -/
def ensureCells (cs : List Cell) (ref : String) : List Cell :=
  if hasCellRef cs ref then cs else insertCellSorted cs (blankCell ref)

/-- Apply `setCellValue` to the first cell carrying `ref` (the cell
`_find_or_create_cell` returns), leaving all others untouched. -/
def updateFirstCell : List Cell → String → Value → List String → Bool → List Cell × List String
  | [], _, _, tbl, _ => ([], tbl)
  | c :: cs, ref, val, tbl, us =>
    if c.r = ref then
      let p := setCellValue c val tbl us
      (p.1 :: cs, p.2)
    else
      let p := updateFirstCell cs ref val tbl us
      (c :: p.1, p.2)

/-- One whole per-update action on a row's cell list: find-or-create the
cell, then run the formula check and value write on it. -/
def cellOp (cs : List Cell) (ref : String) (val : Value) (tbl : List String) (us : Bool) :
    List Cell × List String :=
  updateFirstCell (ensureCells cs ref) ref val tbl us

/-- The insertion loop of `_find_or_create_row`: place the new row before
the first existing row with a larger number, else append. -/
def insertRowSorted : List Row → Row → List Row
  | [], nr => [nr]
  | rw :: rows, nr => if rw.r > nr.r then nr :: rw :: rows else rw :: insertRowSorted rows nr

/-- Whether some row already carries number `n`. -/
def hasRowNum (rows : List Row) (n : Nat) : Bool := rows.any (fun rw => rw.r = n)

/-- `_find_or_create_row`, creation part. -/
def ensureRows (rows : List Row) (n : Nat) : List Row :=
  if hasRowNum rows n then rows else insertRowSorted rows ⟨n, []⟩

/-- Apply `cellOp` to the first row with number `n` (the row
`_find_or_create_row` returns). -/
def updateFirstRow : List Row → Nat → String → Value → List String → Bool → List Row × List String
  | [], _, _, _, tbl, _ => ([], tbl)
  | rw :: rows, n, ref, val, tbl, us =>
    if rw.r = n then
      let p := cellOp rw.cells ref val tbl us
      ({ rw with cells := p.1 } :: rows, p.2)
    else
      let p := updateFirstRow rows n ref val tbl us
      (rw :: p.1, p.2)

/-- One iteration of the `for cell_ref, value in cell_updates.items()` loop
of `_update_cells`. -/
def applyUpdate (rows : List Row) (u : String × Value) (tbl : List String) (us : Bool) :
    Except String (List Row × List String) :=
  match getRowNumber u.1 with
  | .error e => .error e
  | .ok n => .ok (updateFirstRow (ensureRows rows n) n u.1 u.2 tbl us)

/-- `XLSXGenerator._update_cells` on the parsed `sheetData` row list,
threading the shared-string table that Python mutates in place. -/
def updateCells : List Row → List (String × Value) → List String → Bool →
    Except String (List Row × List String)
  | rows, [], tbl, _ => .ok (rows, tbl)
  | rows, u :: ups, tbl, us =>
    match applyUpdate rows u tbl us with
    | .error e => .error e
    | .ok p => updateCells p.1 ups p.2 us

/-- One `<si>` entry of the shared-string part: either a plain `<t>` (with
the optional `xml:space="preserve"` attribute) or a rich-text sequence of
run texts. -/
inductive SsItem where
  | plain (t : String) (preserve : Bool)
  | rich (runs : List String)
deriving DecidableEq

/-- The shared-string part `<sst>`: its `count` and `uniqueCount`
attributes and its `<si>` children.  Model equality stands for byte
equality of the serialized part. -/
structure SstXml where
  count : Nat
  uniqueCount : Nat
  items : List SsItem
deriving DecidableEq

/-- One iteration of the `<si>` loop in `_parse_shared_strings`: a truthy
plain `<t>` text wins, otherwise the truthy run texts are concatenated. -/
def parseItem : SsItem → String
  | .plain t _ => if t = "" then "" else t
  | .rich runs => String.join (runs.filter (fun s => s ≠ ""))

/-- `XLSXGenerator._parse_shared_strings`. -/
def parseSharedStrings (x : SstXml) : List String := x.items.map parseItem

/-- The `text[0].isspace() or text[-1].isspace()` test guarding the
`xml:space="preserve"` attribute in `_rebuild_shared_strings`. -/
def needsPreserve (t : String) : Bool :=
  match t.data with
  | [] => false
  | c :: _ =>
    c.isWhitespace ||
      (match t.data.getLast? with
       | some d => d.isWhitespace
       | none => false)

/-- `XLSXGenerator._rebuild_shared_strings`: a fresh `<sst>` whose `count`
and `uniqueCount` both equal the table length, one plain `<si>` per
entry. -/
def rebuildSharedStrings (tbl : List String) : SstXml :=
  ⟨tbl.length, tbl.length, tbl.map (fun t => .plain t (needsPreserve t))⟩

/-- Parsed content of one package part.  Parts the generator never parses
are opaque byte blobs distinguished by an identifier. -/
inductive Content where
  | wb (sheets : List (String × String))
  | rels (entries : List (String × String))
  | ws (rows : List Row)
  | sst (x : SstXml)
  | blob (id : Nat)
deriving DecidableEq

/-- The zip container: named parts in original order. -/
abbrev Package := List (String × Content)

/-- `t.startswith("xl/")`. -/
def startsWithXl (t : String) : Bool :=
  match t.data with
  | 'x' :: 'l' :: '/' :: _ => true
  | _ => false

/-- `XLSXGenerator._resolve_relationship`: look the identifier up in
`xl/_rels/workbook.xml.rels` and root the target under `xl/`. -/
def resolveRelationship (pkg : Package) (rid : String) : Except String String :=
  match List.lookup "xl/_rels/workbook.xml.rels" pkg with
  | some (.rels entries) =>
    match entries.find? (fun e => e.1 = rid) with
    | some e => .ok (if startsWithXl e.2 then e.2 else "xl/" ++ e.2)
    | none => .error ("Relationship ID \x27" ++ rid ++ "\x27 not found")
  | some _ => .error "xl/_rels/workbook.xml.rels is not a relationships part"
  | none => .error "KeyError: xl/_rels/workbook.xml.rels"

/-- `XLSXGenerator._find_sheet_path_by_name`: exact, case-sensitive scan of
the workbook's declared sheets. -/
def findSheetPathByName (pkg : Package) (nm : String) : Except String String :=
  match List.lookup "xl/workbook.xml" pkg with
  | some (.wb sheets) =>
    match sheets.find? (fun s => s.1 = nm) with
    | some s => resolveRelationship pkg s.2
    | none => .error ("Sheet named \x27" ++ nm ++ "\x27 not found")
  | some _ => .error "xl/workbook.xml is not a workbook part"
  | none => .error "KeyError: xl/workbook.xml"

/-- `XLSXGenerator._find_first_sheet_path`. -/
def findFirstSheetPath (pkg : Package) : Except String String :=
  match List.lookup "xl/workbook.xml" pkg with
  | some (.wb sheets) =>
    match sheets with
    | [] => .error "No sheets found in workbook"
    | s :: _ => resolveRelationship pkg s.2
  | some _ => .error "xl/workbook.xml is not a workbook part"
  | none => .error "KeyError: xl/workbook.xml"

/-- The sheet-selection step at the top of `generate`. -/
def resolveTargetPath (pkg : Package) (sn : Option String) : Except String String :=
  match sn with
  | some nm => findSheetPathByName pkg nm
  | none => findFirstSheetPath pkg

/-- The shared-strings load in `generate` (lines 66-73): presence flag
(`bool(shared_strings_xml)`, the `use_shared_strings` argument) and the
parsed table. -/
def loadSharedStrings (pkg : Package) : Except String (Bool × List String) :=
  match List.lookup "xl/sharedStrings.xml" pkg with
  | none => .ok (false, [])
  | some (.sst x) => .ok (true, parseSharedStrings x)
  | some _ => .error "xl/sharedStrings.xml is not a shared strings part"

/-- The copy loop of `generate` (lines 76-92): parts are emitted in
original order; the target worksheet is patched (updating the threaded
string table), and `xl/sharedStrings.xml` is re-serialized from the table
current at that moment whenever that table is non-empty. -/
def emitParts : Package → String → List (String × Value) → List String → Bool →
    Except String (Package × List String)
  | [], _, _, tbl, _ => .ok ([], tbl)
  | (nm, c) :: rest, sp, ups, tbl, us =>
    if nm = sp then
      match c with
      | .ws rows =>
        match updateCells rows ups tbl us with
        | .error e => .error e
        | .ok p =>
          match emitParts rest sp ups p.2 us with
          | .error e => .error e
          | .ok q => .ok ((nm, .ws p.1) :: q.1, q.2)
      | _ => .error "target sheet part is not a worksheet"
    else if nm = "xl/sharedStrings.xml" ∧ tbl ≠ [] then
      match emitParts rest sp ups tbl us with
      | .error e => .error e
      | .ok q => .ok ((nm, .sst (rebuildSharedStrings tbl)) :: q.1, q.2)
    else
      match emitParts rest sp ups tbl us with
      | .error e => .error e
      | .ok q => .ok ((nm, c) :: q.1, q.2)

/-- `XLSXGenerator.generate`: reject empty updates, resolve the target
sheet, load shared strings, then run the copy loop. -/
def generate (pkg : Package) (ups : List (String × Value)) (sn : Option String) :
    Except String Package :=
  if ups.isEmpty then .error "cell_updates cannot be empty"
  else
    match resolveTargetPath pkg sn with
    | .error e => .error e
    | .ok sp =>
      match loadSharedStrings pkg with
      | .error e => .error e
      | .ok st =>
        match emitParts pkg sp ups st.2 st.1 with
        | .error e => .error e
        | .ok q => .ok q.1

/-- First row carrying number `n` (how both `_find_or_create_row` and a
reader locate a row). -/
def findRow (rows : List Row) (n : Nat) : Option Row := rows.find? (fun rw => rw.r = n)

/-- First cell of a row carrying reference `ref`. -/
def findCellInRow (rw : Row) (ref : String) : Option Cell :=
  rw.cells.find? (fun c => c.r = ref)

/-- Read a cell back out of a worksheet tree by its reference. -/
def readCell (rows : List Row) (ref : String) : Option Cell :=
  match getRowNumber ref with
  | .ok n => (findRow rows n).bind (fun rw => findCellInRow rw ref)
  | .error _ => none

/-- The shared-string table a consumer of the package would see. -/
def sstTableOf (pkg : Package) : List String :=
  match List.lookup "xl/sharedStrings.xml" pkg with
  | some (.sst x) => parseSharedStrings x
  | _ => []

/-- Decimal reading of a `<v>` text (used to resolve a shared-string
index). -/
def natOfText (s : String) : Nat := digitsToNat s.data

/-- Read a cell's observable string value back out of a package: a
shared-string-typed cell is resolved through the package's emitted
shared-string table; any other cell yields its `<v>` text. -/
def readBackString (pkg : Package) (sheetPath ref : String) : Option String :=
  match List.lookup sheetPath pkg with
  | some (.ws rows) =>
    match readCell rows ref with
    | some c =>
      if c.t = some "s" then
        match c.v with
        | some vs => (sstTableOf pkg).get? (natOfText vs)
        | none => none
      else c.v
    | none => none
  | _ => none

/-! ### Specification-side predicates and concrete instances -/

/-- Rows appear in strictly ascending row-number order. -/
abbrev RowsSorted (rows : List Row) : Prop := rows.Pairwise (fun a b => a.r < b.r)

/-- Cells of a row appear in ascending column order (ties allowed only
between distinct reference strings) with pairwise-distinct references. -/
abbrev CellsOk (cs : List Cell) : Prop :=
  cs.Pairwise (fun a b => cmpRefs a.r b.r ≤ 0 ∧ a.r ≠ b.r)

/-- Cells of a row appear in strictly ascending column order. -/
abbrev CellsStrict (cs : List Cell) : Prop := cs.Pairwise (fun a b => cmpRefs a.r b.r < 0)

/-- Well-formedness carried through the patch loop. -/
abbrev WsOk (rows : List Row) : Prop := RowsSorted rows ∧ ∀ rw ∈ rows, CellsOk rw.cells

/-- The values of a patch call that take the string path, in request
order. -/
def stringWrites (ups : List (String × Value)) : List String :=
  ups.filterMap (fun u => if isNumericNonBool u.2 then none else some (pyStr u.2))

/-- A package whose shared-string part records `count="5"` (total
reference count, as real producers write) for a single-entry table; the
worksheet part precedes the shared-string part. -/
def pkgC1 : Package :=
  [("[Content_Types].xml", .blob 0),
   ("xl/workbook.xml", .wb [("Sheet1", "rId1")]),
   ("xl/_rels/workbook.xml.rels", .rels [("rId1", "worksheets/sheet1.xml")]),
   ("xl/worksheets/sheet1.xml", .ws [⟨1, [⟨"A1", none, none, some "7", none⟩]⟩]),
   ("xl/sharedStrings.xml", .sst ⟨5, 1, [.plain "Hello" false]⟩)]

/-- Output of `generate pkgC1 [("A1", 42)] none`. -/
def outC1 : Package :=
  [("[Content_Types].xml", .blob 0),
   ("xl/workbook.xml", .wb [("Sheet1", "rId1")]),
   ("xl/_rels/workbook.xml.rels", .rels [("rId1", "worksheets/sheet1.xml")]),
   ("xl/worksheets/sheet1.xml", .ws [⟨1, [⟨"A1", none, none, some "42", none⟩]⟩]),
   ("xl/sharedStrings.xml", .sst ⟨1, 1, [.plain "Hello" false]⟩)]

/-- A package whose shared-string part precedes the worksheet part in the
zip order. -/
def pkgC2 : Package :=
  [("xl/workbook.xml", .wb [("Sheet1", "rId1")]),
   ("xl/_rels/workbook.xml.rels", .rels [("rId1", "worksheets/sheet1.xml")]),
   ("xl/sharedStrings.xml", .sst ⟨1, 1, [.plain "Old" false]⟩),
   ("xl/worksheets/sheet1.xml", .ws [⟨1, [⟨"A1", none, none, none, none⟩]⟩])]

/-- Output of `generate pkgC2 [("A1", "New")] none`. -/
def outC2 : Package :=
  [("xl/workbook.xml", .wb [("Sheet1", "rId1")]),
   ("xl/_rels/workbook.xml.rels", .rels [("rId1", "worksheets/sheet1.xml")]),
   ("xl/sharedStrings.xml", .sst ⟨1, 1, [.plain "Old" false]⟩),
   ("xl/worksheets/sheet1.xml",
     .ws [⟨1, [⟨"A1", some "s", none, some "1", none⟩]⟩])]

/-- The coordinate begins with one or more uppercase letters followed by
one or more digits (anything may follow). -/
def HasRefPrefix (ref : String) : Prop :=
  ∃ L D R, ref.data = L ++ D ++ R ∧ L ≠ [] ∧ D ≠ [] ∧
    (∀ c ∈ L, isUpperAZ c = true) ∧ (∀ c ∈ D, isDigit09 c = true)

/-- The coordinate consists entirely of one or more uppercase letters
followed by one or more digits (the letters-then-digits pattern of the
specification, matched against the whole coordinate). -/
def IsFullRef (ref : String) : Prop :=
  ∃ L D, ref.data = L ++ D ∧ L ≠ [] ∧ D ≠ [] ∧
    (∀ c ∈ L, isUpperAZ c = true) ∧ (∀ c ∈ D, isDigit09 c = true)

theorem isDigit09_not_upper {c : Char} (h : isDigit09 c = true) : isUpperAZ c = false := by
  simp only [isDigit09, Bool.and_eq_true, decide_eq_true_eq] at h
  have h65 : ¬ (65 ≤ c.toNat) := by omega
  simp [isUpperAZ, h65]

theorem takeWhile_all_append {α : Type} (p : α → Bool) :
    ∀ (L xs : List α), (∀ c ∈ L, p c = true) →
      (L ++ xs).takeWhile p = L ++ xs.takeWhile p := by
  intro L
  induction L with
  | nil => intro xs _; rfl
  | cons a L ih =>
    intro xs h
    have ha : p a = true := h a (by simp)
    simp only [List.cons_append, List.takeWhile_cons, ha, if_true]
    rw [ih xs (fun c hc => h c (by simp [hc]))]

theorem dropWhile_all_append {α : Type} (p : α → Bool) :
    ∀ (L xs : List α), (∀ c ∈ L, p c = true) →
      (L ++ xs).dropWhile p = xs.dropWhile p := by
  intro L
  induction L with
  | nil => intro xs _; rfl
  | cons a L ih =>
    intro xs h
    have ha : p a = true := h a (by simp)
    simp only [List.cons_append, List.dropWhile_cons, ha, if_true]
    exact ih xs (fun c hc => h c (by simp [hc]))

theorem refMatch_isSome_iff (ref : String) : (refMatch ref).isSome = true ↔ HasRefPrefix ref := by
  constructor
  · intro h
    unfold refMatch at h
    by_cases hL : (ref.data.takeWhile isUpperAZ).isEmpty = true
    · simp [hL] at h
    · by_cases hD : ((ref.data.dropWhile isUpperAZ).takeWhile isDigit09).isEmpty = true
      · simp [hD] at h
      · refine ⟨ref.data.takeWhile isUpperAZ,
          (ref.data.dropWhile isUpperAZ).takeWhile isDigit09,
          (ref.data.dropWhile isUpperAZ).dropWhile isDigit09, ?_, ?_, ?_, ?_, ?_⟩
        · rw [List.append_assoc, List.takeWhile_append_dropWhile,
            List.takeWhile_append_dropWhile]
        · simpa [List.isEmpty_iff] using hL
        · simpa [List.isEmpty_iff] using hD
        · intro c hc; exact List.mem_takeWhile_imp hc
        · intro c hc; exact List.mem_takeWhile_imp hc
  · rintro ⟨L, D, R, hdata, hLne, hDne, hLall, hDall⟩
    obtain ⟨d, D', rfl⟩ : ∃ d D', D = d :: D' := by
      cases D with
      | nil => exact absurd rfl hDne
      | cons d D' => exact ⟨d, D', rfl⟩
    have hdup : isUpperAZ d = false := isDigit09_not_upper (hDall d (by simp))
    have htake : ref.data.takeWhile isUpperAZ = L ++ ((d :: D') ++ R).takeWhile isUpperAZ := by
      rw [hdata, List.append_assoc]; exact takeWhile_all_append _ L _ hLall
    have hdrop : ref.data.dropWhile isUpperAZ = (d :: D') ++ R := by
      rw [hdata, List.append_assoc, dropWhile_all_append _ L _ hLall]
      simp [List.dropWhile_cons, hdup]
    have hdd : isDigit09 d = true := hDall d (by simp)
    unfold refMatch
    have h1 : (ref.data.takeWhile isUpperAZ).isEmpty = false := by
      rw [htake]
      cases L with
      | nil => exact absurd rfl hLne
      | cons a L' => simp
    have h2 : ((ref.data.dropWhile isUpperAZ).takeWhile isDigit09).isEmpty = false := by
      rw [hdrop]
      simp [List.takeWhile_cons, hdd]
    simp [h1, h2]

theorem getRowNumber_error_iff (ref : String) :
    getRowNumber ref = .error ("Invalid cell reference: " ++ ref) ↔ ¬ HasRefPrefix ref := by
  rw [← refMatch_isSome_iff]
  unfold getRowNumber
  cases h : refMatch ref with
  | some p => simp [h]
  | none => simp [h]

/-! ### Claim theorems (first group) -/

/-- Claim C10: a generate call with an empty cell-updates mapping raises
the empty-updates error before touching the template package (the result
is this error for every package and sheet selector), so no output bytes
are produced. -/
theorem claim_generate_rejects_empty_updates (pkg : Package) (sn : Option String) :
    generate pkg [] sn = .error "cell_updates cannot be empty" := rfl

/-- Claim C8: with an explicit sheet name, sheet resolution scans the
workbook's declared sheets for an exact (case-sensitive) name match; if no
entry matches, generate fails with the sheet-not-found error and produces
no output package. -/
theorem claim_sheet_not_found (pkg : Package) (ups : List (String × Value)) (nm : String)
    (sheets : List (String × String))
    (hne : ups ≠ [])
    (hwb : List.lookup "xl/workbook.xml" pkg = some (.wb sheets))
    (hnm : ∀ p ∈ sheets, p.1 ≠ nm) :
    generate pkg ups (some nm) = .error ("Sheet named \x27" ++ nm ++ "\x27 not found") := by
  have h1 : ups.isEmpty = false := by
    cases ups with
    | nil => exact absurd rfl hne
    | cons u l => rfl
  have h2 : sheets.find? (fun s => s.1 = nm) = none := by
    rw [List.find?_eq_none]
    intro x hx
    simp [hnm x hx]
  unfold generate resolveTargetPath findSheetPathByName
  simp [h1, hwb, h2]

/-- Claim C8 witness: a workbook declaring only sheet "sheet1" makes the
request for "Sheet1" (different case) fail with the sheet-not-found
error. -/
theorem claim_sheet_not_found_witness :
    generate [("xl/workbook.xml", .wb [("sheet1", "rId1")])]
        [("A1", Value.i 1)] (some "Sheet1")
      = .error "Sheet named \x27Sheet1\x27 not found" :=
  claim_sheet_not_found _ _ _ [("sheet1", "rId1")] (by decide) rfl (by decide)

/-- Claim C7 (corrected): coordinate parsing fails with the
cell-reference-invalid error, carrying the offending coordinate in the
error detail, exactly when the coordinate does not begin with uppercase
letters followed by digits; characters after the digit run are accepted
and ignored.  In particular "3B" fails with the error identifying "3B". -/
theorem claim_cell_reference_invalid :
    (∀ ref : String,
      getRowNumber ref = .error ("Invalid cell reference: " ++ ref) ↔ ¬ HasRefPrefix ref)
    ∧ getRowNumber "3B" = .error "Invalid cell reference: 3B" :=
  ⟨getRowNumber_error_iff, rfl⟩

/-- Claim C7 counterexample: "B3X" does not match the letters-then-digits
pattern as a whole, yet coordinate parsing accepts it (returning row 3)
instead of failing with the cell-reference-invalid error. -/
theorem claim_cell_reference_invalid_counterexample :
    ¬ IsFullRef "B3X" ∧ getRowNumber "B3X" = .ok 3 := by
  constructor
  · rintro ⟨L, D, hdata, hLne, hDne, hLall, hDall⟩
    have hX : ('X' : Char) ∈ D := by
      have hlast : ("B3X".data.getLast? = D.getLast?) := by
        rw [hdata]; exact List.getLast?_append_of_ne_nil L hDne
      have hsome : 'X' ∈ D.getLast? := by
        have : D.getLast? = some 'X' := by rw [← hlast]; rfl
        rw [this]; rfl
      obtain ⟨hne', hEq⟩ := List.mem_getLast?_eq_getLast hsome
      exact hEq ▸ List.getLast_mem hne'
    have := hDall 'X' hX
    simp [isDigit09] at this
  · rfl

/-- Claim C2 (code bug): with the shared-string part stored before the
worksheet part in the zip order, patching "A1" with the new string "New"
emits the old single-entry table but makes the cell reference index 1, so
reading the cell back through the emitted shared-string table yields
nothing instead of "New". -/
theorem claim_roundtrip_failing_input :
    generate pkgC2 [("A1", Value.s "New")] none = .ok outC2 ∧
    List.lookup "xl/worksheets/sheet1.xml" outC2
      = some (.ws [⟨1, [⟨"A1", some "s", none, some "1", none⟩]⟩]) ∧
    sstTableOf outC2 = ["Old"] ∧
    readBackString outC2 "xl/worksheets/sheet1.xml" "A1" = none :=
  ⟨rfl, rfl, rfl, rfl⟩

/-- Claim C1 counterexample: updating only the numeric cell "A1"
introduces no new string value (the parsed shared-string table of the
output equals the input's), yet the emitted shared-string part differs
from the input part, because the generator re-serializes a non-empty table
unconditionally. -/
theorem claim_frame_counterexample :
    generate pkgC1 [("A1", Value.i 42)] none = .ok outC1 ∧
    sstTableOf outC1 = sstTableOf pkgC1 ∧
    List.lookup "xl/sharedStrings.xml" outC1 ≠ List.lookup "xl/sharedStrings.xml" pkgC1 := by
  refine ⟨rfl, rfl, ?_⟩
  decide

/-! ### Comparator facts -/

theorem natLexLt_irrefl : ∀ a : List Nat, natLexLt a a = false
  | [] => rfl
  | x :: xs => by simp [natLexLt, natLexLt_irrefl xs]

theorem natLexLt_eq_of_not :
    ∀ {a b : List Nat}, natLexLt a b = false → natLexLt b a = false → a = b
  | [], [], _, _ => rfl
  | [], _ :: _, h1, _ => by simp [natLexLt] at h1
  | _ :: _, [], _, h2 => by simp [natLexLt] at h2
  | x :: xs, y :: ys, h1, h2 => by
    simp only [natLexLt] at h1 h2
    by_cases hxy : x < y
    · simp [hxy] at h1
    · by_cases hyx : y < x
      · simp [hyx] at h2
      · have hx : x = y := by omega
        subst hx
        simp [hxy] at h1 h2
        rw [natLexLt_eq_of_not h1 h2]

theorem natLexLt_trans :
    ∀ {a b c : List Nat}, natLexLt a b = true → natLexLt b c = true → natLexLt a c = true
  | _, [], _, h1, _ => by simp [natLexLt] at h1
  | _, _ :: _, [], _, h2 => by simp [natLexLt] at h2
  | [], _ :: _, _ :: _, _, _ => by simp [natLexLt]
  | x :: xs, y :: ys, z :: zs, h1, h2 => by
    simp only [natLexLt] at h1 h2 ⊢
    by_cases hxy : x < y
    · rw [if_pos hxy] at h1
      by_cases hyz : y < z
      · rw [if_pos (show x < z by omega)]
      · by_cases hzy : z < y
        · rw [if_neg hyz, if_pos hzy] at h2
          simp at h2
        · rw [if_pos (show x < z by omega)]
    · by_cases hyx : y < x
      · rw [if_neg hxy, if_pos hyx] at h1
        simp at h1
      · have hx : x = y := by omega
        subst hx
        rw [if_neg hxy, if_neg hyx] at h1
        by_cases hxz : x < z
        · rw [if_pos hxz]
        · by_cases hzx : z < x
          · rw [if_neg hxz, if_pos hzx] at h2
            simp at h2
          · rw [if_neg hxz, if_neg hzx] at h2 ⊢
            exact natLexLt_trans h1 h2

theorem cmpRefs_le_trans_of_lt {a b c : String}
    (h1 : cmpRefs a b < 0) (h2 : cmpRefs b c ≤ 0) : cmpRefs a c ≤ 0 := by
  unfold cmpRefs at h1 h2 ⊢
  cases ha : refMatch a with
  | none => simp [ha] at h1
  | some pa =>
    cases hb : refMatch b with
    | none => simp [ha, hb] at h1
    | some pb =>
      cases hc : refMatch c with
      | none => simp
      | some pc =>
        simp only [ha, hb] at h1
        simp only [hb, hc] at h2
        simp only [ha, hc]
        by_cases hab : natLexLt (colKey pa.1) (colKey pb.1) = true
        · by_cases hbc : natLexLt (colKey pb.1) (colKey pc.1) = true
          · rw [if_pos (natLexLt_trans hab hbc)]
            omega
          · by_cases hcb : natLexLt (colKey pc.1) (colKey pb.1) = true
            · rw [if_neg hbc, if_pos hcb] at h2
              exfalso
              omega
            · have hk : colKey pb.1 = colKey pc.1 :=
                natLexLt_eq_of_not (by simpa using hbc) (by simpa using hcb)
              rw [← hk, if_pos hab]
              omega
        · by_cases hba : natLexLt (colKey pb.1) (colKey pa.1) = true
          · rw [if_neg hab, if_pos hba] at h1
            exfalso
            omega
          · have hk : colKey pa.1 = colKey pb.1 :=
              natLexLt_eq_of_not (by simpa using hab) (by simpa using hba)
            rw [if_neg hab, if_neg hba] at h1
            by_cases hbc : natLexLt (colKey pb.1) (colKey pc.1) = true
            · rw [hk, if_pos hbc]
              omega
            · by_cases hcb : natLexLt (colKey pc.1) (colKey pb.1) = true
              · rw [if_neg hbc, if_pos hcb] at h2
                exfalso
                omega
              · have hk2 : colKey pb.1 = colKey pc.1 :=
                  natLexLt_eq_of_not (by simpa using hbc) (by simpa using hcb)
                rw [if_neg hbc, if_neg hcb] at h2
                rw [hk, hk2]
                rw [if_neg (by simp [natLexLt_irrefl])]
                rw [if_neg (by simp [natLexLt_irrefl])]
                omega

theorem cmpRefs_le_rev_of_not_lt {a b : String} (h : ¬ cmpRefs a b < 0) : cmpRefs b a ≤ 0 := by
  unfold cmpRefs at h ⊢
  cases ha : refMatch a with
  | none => cases hb : refMatch b <;> simp
  | some pa =>
    cases hb : refMatch b with
    | none => simp
    | some pb =>
      simp only [ha, hb] at h
      simp only [ha, hb]
      by_cases hab : natLexLt (colKey pa.1) (colKey pb.1) = true
      · simp [hab] at h
      · by_cases hba : natLexLt (colKey pb.1) (colKey pa.1) = true
        · simp [hba]
        · simp [hab, hba] at h
          simp [hab, hba]
          omega

theorem cmpRefs_lt_ne {a b : String} (h : cmpRefs a b < 0) : a ≠ b := by
  rintro rfl
  unfold cmpRefs at h
  cases ha : refMatch a with
  | none => simp [ha] at h
  | some pa => simp [ha, natLexLt_irrefl] at h

/-! ### Insertion preserves the ordering invariants -/

theorem mem_insertCellSorted {cs : List Cell} {nc x : Cell}
    (h : x ∈ insertCellSorted cs nc) : x ∈ cs ∨ x = nc := by
  induction cs with
  | nil =>
    simp [insertCellSorted] at h
    simp [h]
  | cons c cs ih =>
    by_cases hlt : cmpRefs nc.r c.r < 0
    · simp only [insertCellSorted, if_pos hlt] at h
      rcases List.mem_cons.mp h with rfl | h'
      · exact Or.inr rfl
      · exact Or.inl h'
    · simp only [insertCellSorted, if_neg hlt] at h
      rcases List.mem_cons.mp h with rfl | h'
      · exact Or.inl (List.mem_cons_self _ _)
      · rcases ih h' with h'' | rfl
        · exact Or.inl (List.mem_cons_of_mem _ h'')
        · exact Or.inr rfl

theorem insertCellSorted_ok {cs : List Cell} {nc : Cell}
    (hne : ∀ c ∈ cs, c.r ≠ nc.r) (h : CellsOk cs) : CellsOk (insertCellSorted cs nc) := by
  induction cs with
  | nil => simp [insertCellSorted]
  | cons c cs ih =>
    obtain ⟨hc, htail⟩ := List.pairwise_cons.mp h
    by_cases hlt : cmpRefs nc.r c.r < 0
    · simp only [insertCellSorted, if_pos hlt]
      refine List.pairwise_cons.mpr ⟨?_, h⟩
      intro x hx
      rcases List.mem_cons.mp hx with rfl | hx'
      · exact ⟨le_of_lt hlt, fun he => hne x (List.mem_cons_self _ _) he.symm⟩
      · obtain ⟨hcx, _⟩ := hc x hx'
        exact ⟨cmpRefs_le_trans_of_lt hlt hcx,
          fun he => hne x (List.mem_cons_of_mem _ hx') he.symm⟩
    · simp only [insertCellSorted, if_neg hlt]
      refine List.pairwise_cons.mpr
        ⟨?_, ih (fun y hy => hne y (List.mem_cons_of_mem _ hy)) htail⟩
      intro x hx
      rcases mem_insertCellSorted hx with hx' | rfl
      · exact hc x hx'
      · exact ⟨cmpRefs_le_rev_of_not_lt hlt, hne c (List.mem_cons_self _ _)⟩

theorem setCellValue_r (c : Cell) (val : Value) (tbl : List String) (us : Bool) :
    (setCellValue c val tbl us).1.r = c.r := by
  unfold setCellValue
  by_cases h : c.f.isSome <;> simp [h]

theorem setCellValue_f (c : Cell) (val : Value) (tbl : List String) (us : Bool) :
    (setCellValue c val tbl us).1.f = c.f := by
  unfold setCellValue
  by_cases h : c.f.isSome <;> simp [h]

theorem updateFirstCell_map_r (cs : List Cell) (ref : String) (val : Value)
    (tbl : List String) (us : Bool) :
    (updateFirstCell cs ref val tbl us).1.map (fun c => c.r) = cs.map (fun c => c.r) := by
  induction cs generalizing tbl with
  | nil => rfl
  | cons c cs ih =>
    by_cases h : c.r = ref
    · simp [updateFirstCell, h, setCellValue_r]
    · simp [updateFirstCell, h, ih]

theorem pairwise_transfer {α β : Type} {f : α → β} {R : β → β → Prop} {l l' : List α}
    (hmap : l'.map f = l.map f) (h : l.Pairwise (fun a b => R (f a) (f b))) :
    l'.Pairwise (fun a b => R (f a) (f b)) := by
  have h1 : (l.map f).Pairwise R := List.pairwise_map.mpr h
  rw [← hmap] at h1
  exact List.pairwise_map.mp h1

theorem hasCellRef_false {cs : List Cell} {ref : String}
    (h : hasCellRef cs ref = false) : ∀ c ∈ cs, c.r ≠ ref := by
  intro c hc
  have := List.any_eq_false.mp h c hc
  simpa using this

theorem cellOp_ok {cs : List Cell} {ref : String} {val : Value} {tbl : List String} {us : Bool}
    (h : CellsOk cs) : CellsOk (cellOp cs ref val tbl us).1 := by
  unfold cellOp ensureCells
  by_cases hh : hasCellRef cs ref = true
  · rw [if_pos hh]
    exact pairwise_transfer (f := fun c : Cell => c.r)
      (R := fun x y => cmpRefs x y ≤ 0 ∧ x ≠ y)
      (updateFirstCell_map_r cs ref val tbl us) h
  · rw [if_neg hh]
    have hne := hasCellRef_false (by simpa using hh)
    have hok : CellsOk (insertCellSorted cs (blankCell ref)) :=
      insertCellSorted_ok (fun c hc => hne c hc) h
    exact pairwise_transfer (f := fun c : Cell => c.r)
      (R := fun x y => cmpRefs x y ≤ 0 ∧ x ≠ y)
      (updateFirstCell_map_r _ ref val tbl us) hok

theorem mem_insertRowSorted {rows : List Row} {nr x : Row}
    (h : x ∈ insertRowSorted rows nr) : x ∈ rows ∨ x = nr := by
  induction rows with
  | nil =>
    simp [insertRowSorted] at h
    simp [h]
  | cons r0 rows ih =>
    by_cases hlt : r0.r > nr.r
    · simp only [insertRowSorted, if_pos hlt] at h
      rcases List.mem_cons.mp h with rfl | h'
      · exact Or.inr rfl
      · exact Or.inl h'
    · simp only [insertRowSorted, if_neg hlt] at h
      rcases List.mem_cons.mp h with rfl | h'
      · exact Or.inl (List.mem_cons_self _ _)
      · rcases ih h' with h'' | rfl
        · exact Or.inl (List.mem_cons_of_mem _ h'')
        · exact Or.inr rfl

theorem insertRowSorted_sorted {rows : List Row} {nr : Row}
    (hne : ∀ rw ∈ rows, rw.r ≠ nr.r) (h : RowsSorted rows) :
    RowsSorted (insertRowSorted rows nr) := by
  induction rows with
  | nil => simp [insertRowSorted]
  | cons r0 rows ih =>
    obtain ⟨hhead, htail⟩ := List.pairwise_cons.mp h
    by_cases hlt : r0.r > nr.r
    · simp only [insertRowSorted, if_pos hlt]
      refine List.pairwise_cons.mpr ⟨?_, h⟩
      intro x hx
      rcases List.mem_cons.mp hx with rfl | hx'
      · exact hlt
      · exact Nat.lt_trans hlt (hhead x hx')
    · simp only [insertRowSorted, if_neg hlt]
      refine List.pairwise_cons.mpr
        ⟨?_, ih (fun y hy => hne y (List.mem_cons_of_mem _ hy)) htail⟩
      intro x hx
      rcases mem_insertRowSorted hx with hx' | rfl
      · exact hhead x hx'
      · exact Nat.lt_of_le_of_ne (Nat.le_of_not_lt hlt) (hne r0 (List.mem_cons_self _ _))

theorem hasRowNum_false {rows : List Row} {n : Nat}
    (h : hasRowNum rows n = false) : ∀ rw ∈ rows, rw.r ≠ n := by
  intro rw hrw
  have := List.any_eq_false.mp h rw hrw
  simpa using this

theorem ensureRows_wsOk {rows : List Row} {n : Nat} (h : WsOk rows) :
    WsOk (ensureRows rows n) := by
  unfold ensureRows
  by_cases hh : hasRowNum rows n = true
  · rw [if_pos hh]; exact h
  · rw [if_neg hh]
    have hne := hasRowNum_false (by simpa using hh)
    refine ⟨insertRowSorted_sorted (fun rw hrw => hne rw hrw) h.1, ?_⟩
    intro rw hrw
    rcases mem_insertRowSorted hrw with h' | rfl
    · exact h.2 rw h'
    · simp

theorem updateFirstRow_map_r (rows : List Row) (n : Nat) (ref : String) (val : Value)
    (tbl : List String) (us : Bool) :
    (updateFirstRow rows n ref val tbl us).1.map (fun rw => rw.r)
      = rows.map (fun rw => rw.r) := by
  induction rows generalizing tbl with
  | nil => rfl
  | cons r0 rows ih =>
    by_cases h : r0.r = n
    · simp [updateFirstRow, h]
    · simp [updateFirstRow, h, ih]

theorem updateFirstRow_cellsOk {rows : List Row} {n : Nat} {ref : String} {val : Value}
    {tbl : List String} {us : Bool} (h : ∀ rw ∈ rows, CellsOk rw.cells) :
    ∀ rw ∈ (updateFirstRow rows n ref val tbl us).1, CellsOk rw.cells := by
  induction rows generalizing tbl with
  | nil => simp [updateFirstRow]
  | cons r0 rows ih =>
    intro rw hrw
    by_cases he : r0.r = n
    · simp only [updateFirstRow, if_pos he] at hrw
      rcases List.mem_cons.mp hrw with rfl | h'
      · exact cellOp_ok (h r0 (List.mem_cons_self _ _))
      · exact h rw (List.mem_cons_of_mem _ h')
    · simp only [updateFirstRow, if_neg he] at hrw
      rcases List.mem_cons.mp hrw with rfl | h'
      · exact h rw (List.mem_cons_self _ _)
      · exact ih (fun y hy => h y (List.mem_cons_of_mem _ hy)) rw h'

theorem updateFirstRow_wsOk {rows : List Row} {n : Nat} {ref : String} {val : Value}
    {tbl : List String} {us : Bool} (h : WsOk rows) :
    WsOk (updateFirstRow rows n ref val tbl us).1 :=
  ⟨pairwise_transfer (f := fun rw : Row => rw.r) (R := fun x y => x < y)
     (updateFirstRow_map_r rows n ref val tbl us) h.1,
   updateFirstRow_cellsOk h.2⟩

theorem applyUpdate_wsOk {rows : List Row} {u : String × Value} {tbl : List String} {us : Bool}
    {rows' : List Row} {tbl' : List String} (h : WsOk rows)
    (hr : applyUpdate rows u tbl us = .ok (rows', tbl')) : WsOk rows' := by
  unfold applyUpdate at hr
  cases hn : getRowNumber u.1 with
  | error e => rw [hn] at hr; exact absurd hr (by simp)
  | ok n =>
    rw [hn] at hr
    have hq : rows' = (updateFirstRow (ensureRows rows n) n u.1 u.2 tbl us).1 := by
      have := congrArg (fun q => q.1) (Except.ok.inj hr)
      exact this.symm
    rw [hq]
    exact updateFirstRow_wsOk (ensureRows_wsOk h)

theorem updateCells_wsOk {rows : List Row} {ups : List (String × Value)} {tbl : List String}
    {us : Bool} {rows' : List Row} {tbl' : List String} (h : WsOk rows)
    (hr : updateCells rows ups tbl us = .ok (rows', tbl')) : WsOk rows' := by
  induction ups generalizing rows tbl with
  | nil =>
    simp only [updateCells] at hr
    have h12 := Except.ok.inj hr
    have h1 : rows = rows' := congrArg Prod.fst h12
    rw [← h1]
    exact h
  | cons u ups ih =>
    simp only [updateCells] at hr
    cases ha : applyUpdate rows u tbl us with
    | error e => rw [ha] at hr; exact absurd hr (by simp)
    | ok p =>
      rw [ha] at hr
      exact ih (applyUpdate_wsOk h ha) hr

theorem cellsStrict_ok {cs : List Cell} (h : CellsStrict cs) : CellsOk cs :=
  h.imp (fun hab => ⟨le_of_lt hab, cmpRefs_lt_ne hab⟩)

/-- Claim C4: starting from a worksheet whose rows are strictly ascending
by row number and whose cells are strictly ascending in column order
within each row, any update sequence yields a worksheet with no duplicate
row numbers, no duplicate cell references within a row, and ascending
column order within each row — even when cells arrive out of natural
order. -/
theorem claim_insertion_invariants
    (rows : List Row) (ups : List (String × Value)) (tbl : List String) (us : Bool)
    {rows' : List Row} {tbl' : List String}
    (hsort : RowsSorted rows)
    (hcells : ∀ rw ∈ rows, CellsStrict rw.cells)
    (hrun : updateCells rows ups tbl us = .ok (rows', tbl')) :
    rows'.Pairwise (fun a b => a.r ≠ b.r) ∧
    (∀ rw ∈ rows', rw.cells.Pairwise (fun a b => a.r ≠ b.r)) ∧
    RowsSorted rows' ∧
    (∀ rw ∈ rows', rw.cells.Pairwise (fun a b => cmpRefs a.r b.r ≤ 0)) := by
  have h0 : WsOk rows := ⟨hsort, fun rw hrw => cellsStrict_ok (hcells rw hrw)⟩
  have h1 : WsOk rows' := updateCells_wsOk h0 hrun
  refine ⟨h1.1.imp (fun hab => Nat.ne_of_lt hab),
    fun rw hrw => (h1.2 rw hrw).imp (fun hab => hab.2),
    h1.1,
    fun rw hrw => (h1.2 rw hrw).imp (fun hab => hab.1)⟩

/-- Claim C4 witness: updating "D5" and then "B5" on a sheet holding only
an empty row 5 yields the row with cells ordered B5 before D5, duplicate
free. -/
theorem claim_insertion_invariants_witness :
    RowsSorted [⟨5, [⟨"B5", none, none, some "2", none⟩, ⟨"D5", none, none, some "1", none⟩]⟩] ∧
    ([⟨"B5", none, none, some "2", none⟩, ⟨"D5", none, none, some "1", none⟩] : List Cell).Pairwise
      (fun a b => cmpRefs a.r b.r ≤ 0) :=
  ⟨(claim_insertion_invariants [⟨5, []⟩]
      [("D5", Value.i 1), ("B5", Value.i 2)] [] false
      (by simp) (by simp) rfl).2.2.1,
   (claim_insertion_invariants [⟨5, []⟩]
      [("D5", Value.i 1), ("B5", Value.i 2)] [] false
      (by simp) (by simp) rfl).2.2.2
     ⟨5, [⟨"B5", none, none, some "2", none⟩, ⟨"D5", none, none, some "1", none⟩]⟩
     (by decide)⟩

/-! ### First-occurrence splits and find? facts -/

theorem exists_first_split {α : Type} (p : α → Bool) :
    ∀ {l : List α}, l.any p = true →
      ∃ pre x suf, l = pre ++ x :: suf ∧ (∀ y ∈ pre, p y = false) ∧ p x = true := by
  intro l
  induction l with
  | nil => intro h; simp at h
  | cons a l ih =>
    intro h
    by_cases ha : p a = true
    · exact ⟨[], a, l, rfl, by simp, ha⟩
    · have h' : l.any p = true := by
        simp only [List.any_cons, Bool.or_eq_true] at h
        rcases h with h | h
        · exact absurd h ha
        · exact h
      obtain ⟨pre, x, suf, hEq, hpre, hx⟩ := ih h'
      refine ⟨a :: pre, x, suf, by simp [hEq], ?_, hx⟩
      intro y hy
      rcases List.mem_cons.mp hy with rfl | hy'
      · simpa using ha
      · exact hpre y hy'

theorem find?_first {α : Type} (p : α → Bool) :
    ∀ (pre : List α) (x : α) (suf : List α), (∀ y ∈ pre, p y = false) → p x = true →
      (pre ++ x :: suf).find? p = some x := by
  intro pre
  induction pre with
  | nil =>
    intro x suf _ hx
    simpa using List.find?_cons_of_pos suf hx
  | cons a pre ih =>
    intro x suf hpre hx
    have ha : p a = false := hpre a (List.mem_cons_self _ _)
    rw [List.cons_append, List.find?_cons_of_neg _ (by simp [ha])]
    exact ih x suf (fun y hy => hpre y (List.mem_cons_of_mem _ hy)) hx

theorem find?_middle_skip {α : Type} (p : α → Bool) {x : α} (hx : p x = false) :
    ∀ (pre suf : List α), (pre ++ x :: suf).find? p = (pre ++ suf).find? p := by
  intro pre suf
  induction pre with
  | nil => rw [List.nil_append, List.nil_append, List.find?_cons_of_neg suf (by simp [hx])]
  | cons a pre ih =>
    by_cases ha : p a = true
    · simp [List.find?_cons_of_pos _ ha]
    · simp only [List.cons_append,
        List.find?_cons_of_neg _ (by simpa using ha)]
      exact ih

theorem insertCellSorted_split (cs : List Cell) (nc : Cell) :
    ∃ pre suf, insertCellSorted cs nc = pre ++ nc :: suf ∧ cs = pre ++ suf := by
  induction cs with
  | nil => exact ⟨[], [], rfl, rfl⟩
  | cons c cs ih =>
    by_cases hlt : cmpRefs nc.r c.r < 0
    · exact ⟨[], c :: cs, by simp [insertCellSorted, hlt], rfl⟩
    · obtain ⟨pre, suf, h1, h2⟩ := ih
      refine ⟨c :: pre, suf, ?_, by simp [h2]⟩
      simp [insertCellSorted, hlt, h1]

theorem insertRowSorted_split (rows : List Row) (nr : Row) :
    ∃ pre suf, insertRowSorted rows nr = pre ++ nr :: suf ∧ rows = pre ++ suf := by
  induction rows with
  | nil => exact ⟨[], [], rfl, rfl⟩
  | cons r0 rows ih =>
    by_cases hlt : r0.r > nr.r
    · exact ⟨[], r0 :: rows, by simp [insertRowSorted, hlt], rfl⟩
    · obtain ⟨pre, suf, h1, h2⟩ := ih
      refine ⟨r0 :: pre, suf, ?_, by simp [h2]⟩
      simp [insertRowSorted, hlt, h1]

theorem updateFirstCell_split (ref : String) (val : Value) (us : Bool) :
    ∀ (pre : List Cell) (c : Cell) (suf : List Cell) (tbl : List String),
      (∀ y ∈ pre, y.r ≠ ref) → c.r = ref →
      updateFirstCell (pre ++ c :: suf) ref val tbl us
        = (pre ++ (setCellValue c val tbl us).1 :: suf, (setCellValue c val tbl us).2) := by
  intro pre
  induction pre with
  | nil =>
    intro c suf tbl _ hc
    simp [updateFirstCell, hc]
  | cons a pre ih =>
    intro c suf tbl hpre hc
    have ha : a.r ≠ ref := hpre a (List.mem_cons_self _ _)
    simp only [List.cons_append, updateFirstCell, if_neg ha, List.append_eq]
    rw [ih c suf tbl (fun y hy => hpre y (List.mem_cons_of_mem _ hy)) hc]

theorem updateFirstRow_split (n : Nat) (ref : String) (val : Value) (us : Bool) :
    ∀ (pre : List Row) (rw : Row) (suf : List Row) (tbl : List String),
      (∀ y ∈ pre, y.r ≠ n) → rw.r = n →
      updateFirstRow (pre ++ rw :: suf) n ref val tbl us
        = (pre ++ ({ rw with cells := (cellOp rw.cells ref val tbl us).1 } : Row) :: suf,
           (cellOp rw.cells ref val tbl us).2) := by
  intro pre
  induction pre with
  | nil =>
    intro rw suf tbl _ hrw
    simp [updateFirstRow, hrw]
  | cons a pre ih =>
    intro rw suf tbl hpre hrw
    have ha : a.r ≠ n := hpre a (List.mem_cons_self _ _)
    simp only [List.cons_append, updateFirstRow, if_neg ha, List.append_eq]
    rw [ih rw suf tbl (fun y hy => hpre y (List.mem_cons_of_mem _ hy)) hrw]

theorem setCellValue_of_no_formula (c : Cell) (val : Value) (tbl : List String) (us : Bool)
    (hc : c.f = none) :
    setCellValue c val tbl us
      = (⟨c.r, (valueRepr val tbl us).1, none, some (valueRepr val tbl us).2.1, none⟩,
         (valueRepr val tbl us).2.2) := by
  cases c with
  | mk r t f v is =>
    simp only [Cell.f] at hc  -- hmm placeholder
    subst hc
    simp [setCellValue]

/-! ### What one update writes, and what it leaves alone -/

theorem hasCellRef_true {cs : List Cell} {ref : String}
    (h : hasCellRef cs ref = true) :
    ∃ pre c suf, cs = pre ++ c :: suf ∧ (∀ y ∈ pre, y.r ≠ ref) ∧ c.r = ref := by
  obtain ⟨pre, c, suf, hEq, hpre, hc⟩ := exists_first_split _ h
  refine ⟨pre, c, suf, hEq, ?_, by simpa using hc⟩
  intro y hy
  simpa using hpre y hy

theorem hasRowNum_true {rows : List Row} {n : Nat}
    (h : hasRowNum rows n = true) :
    ∃ pre rw suf, rows = pre ++ rw :: suf ∧ (∀ y ∈ pre, y.r ≠ n) ∧ rw.r = n := by
  obtain ⟨pre, rw, suf, hEq, hpre, hrw⟩ := exists_first_split _ h
  refine ⟨pre, rw, suf, hEq, ?_, by simpa using hrw⟩
  intro y hy
  simpa using hpre y hy

theorem cellOp_writes (val : Value) (tbl : List String) (us : Bool)
    {cs : List Cell} {ref : String} (hff : ∀ c ∈ cs, c.r = ref → c.f = none) :
    ∃ pre suf,
      (cellOp cs ref val tbl us).1
        = pre ++ (⟨ref, (valueRepr val tbl us).1, none,
            some (valueRepr val tbl us).2.1, none⟩ : Cell) :: suf ∧
      (∀ y ∈ pre, y.r ≠ ref) ∧
      (cellOp cs ref val tbl us).2 = (valueRepr val tbl us).2.2 := by
  unfold cellOp ensureCells
  by_cases hh : hasCellRef cs ref = true
  · rw [if_pos hh]
    obtain ⟨pre, c, suf, hEq, hpre, hc⟩ := hasCellRef_true hh
    have hcf : c.f = none := hff c (by rw [hEq]; exact List.mem_append_right _ (List.mem_cons_self _ _)) hc
    rw [hEq, updateFirstCell_split ref val us pre c suf tbl hpre hc,
      setCellValue_of_no_formula c val tbl us hcf]
    exact ⟨pre, suf, by rw [hc], hpre, rfl⟩
  · rw [if_neg hh]
    have hne := hasCellRef_false (by simpa using hh)
    obtain ⟨pre, suf, hIns, hCs⟩ := insertCellSorted_split cs (blankCell ref)
    have hpre : ∀ y ∈ pre, y.r ≠ ref := by
      intro y hy
      exact hne y (by rw [hCs]; exact List.mem_append_left _ hy)
    rw [hIns, updateFirstCell_split ref val us pre (blankCell ref) suf tbl hpre rfl,
      setCellValue_of_no_formula (blankCell ref) val tbl us rfl]
    exact ⟨pre, suf, rfl, hpre, rfl⟩

theorem ensureRows_split (rows : List Row) (n : Nat) :
    ∃ pre rw suf, ensureRows rows n = pre ++ rw :: suf ∧
      (∀ y ∈ pre, y.r ≠ n) ∧ rw.r = n ∧ (rw ∈ rows ∨ rw.cells = []) := by
  unfold ensureRows
  by_cases hh : hasRowNum rows n = true
  · rw [if_pos hh]
    obtain ⟨pre, rw, suf, hEq, hpre, hrw⟩ := hasRowNum_true hh
    exact ⟨pre, rw, suf, hEq, hpre, hrw,
      Or.inl (by rw [hEq]; exact List.mem_append_right _ (List.mem_cons_self _ _))⟩
  · rw [if_neg hh]
    have hne := hasRowNum_false (by simpa using hh)
    obtain ⟨pre, suf, hIns, hRows⟩ := insertRowSorted_split rows ⟨n, []⟩
    refine ⟨pre, ⟨n, []⟩, suf, hIns, ?_, rfl, Or.inr rfl⟩
    intro y hy
    exact hne y (by rw [hRows]; exact List.mem_append_left _ hy)

theorem applyUpdate_writes (val : Value) (tbl : List String) (us : Bool)
    {rows : List Row} {ref : String} {n : Nat}
    (hn : getRowNumber ref = .ok n)
    (hff : ∀ rw ∈ rows, ∀ c ∈ rw.cells, c.r = ref → c.f = none) :
    ∃ rows',
      applyUpdate rows (ref, val) tbl us = .ok (rows', (valueRepr val tbl us).2.2) ∧
      readCell rows' ref
        = some ⟨ref, (valueRepr val tbl us).1, none, some (valueRepr val tbl us).2.1, none⟩ := by
  obtain ⟨preR, rw, sufR, hEq, hpre, hrw, hor⟩ := ensureRows_split rows n
  have hffrow : ∀ c ∈ rw.cells, c.r = ref → c.f = none := by
    rcases hor with hmem | hnil
    · exact hff rw hmem
    · rw [hnil]; intro c hc; exact absurd hc (List.not_mem_nil c)
  obtain ⟨preC, sufC, hCells, hpreC, hTbl⟩ := cellOp_writes val tbl us hffrow
  have hA : applyUpdate rows (ref, val) tbl us
      = .ok (preR ++ ({ rw with cells := (cellOp rw.cells ref val tbl us).1 } : Row) :: sufR,
             (cellOp rw.cells ref val tbl us).2) := by
    simp only [applyUpdate, hn]
    rw [hEq, updateFirstRow_split n ref val us preR rw sufR tbl hpre hrw]
  have hfr : findRow (preR ++ ({ rw with cells := (cellOp rw.cells ref val tbl us).1 } : Row) :: sufR) n
      = some ({ rw with cells := (cellOp rw.cells ref val tbl us).1 } : Row) := by
    unfold findRow
    exact find?_first _ preR _ sufR (fun y hy => by simpa using hpre y hy) (by simpa using hrw)
  refine ⟨_, by rw [hA, hTbl], ?_⟩
  simp only [readCell, hn]
  rw [hfr, Option.some_bind]
  unfold findCellInRow
  simp only
  rw [hCells]
  exact find?_first _ preC _ sufC (fun y hy => by simpa using hpreC y hy) (by simp)

/-! ### Formula-freeness is preserved across updates -/

theorem updateFirstCell_ff {P : String → Prop} {cs : List Cell} {ref : String} {val : Value}
    {tbl : List String} {us : Bool}
    (h : ∀ c ∈ cs, P c.r → c.f = none) :
    ∀ c ∈ (updateFirstCell cs ref val tbl us).1, P c.r → c.f = none := by
  induction cs generalizing tbl with
  | nil => simp [updateFirstCell]
  | cons c0 cs ih =>
    intro c hc
    by_cases he : c0.r = ref
    · simp only [updateFirstCell, if_pos he] at hc
      rcases List.mem_cons.mp hc with rfl | h'
      · rw [setCellValue_r, setCellValue_f]
        exact h c0 (List.mem_cons_self _ _)
      · exact h c (List.mem_cons_of_mem _ h')
    · simp only [updateFirstCell, if_neg he] at hc
      rcases List.mem_cons.mp hc with rfl | h'
      · exact h c (List.mem_cons_self _ _)
      · exact ih (fun y hy => h y (List.mem_cons_of_mem _ hy)) c h'

theorem cellOp_ff {P : String → Prop} {cs : List Cell} {ref : String} {val : Value}
    {tbl : List String} {us : Bool}
    (h : ∀ c ∈ cs, P c.r → c.f = none) :
    ∀ c ∈ (cellOp cs ref val tbl us).1, P c.r → c.f = none := by
  unfold cellOp ensureCells
  by_cases hh : hasCellRef cs ref = true
  · rw [if_pos hh]
    exact updateFirstCell_ff h
  · rw [if_neg hh]
    refine updateFirstCell_ff ?_
    intro c hc
    rcases mem_insertCellSorted hc with h' | rfl
    · exact h c h'
    · intro _; rfl

theorem updateFirstRow_ff {P : String → Prop} {rows : List Row} {n : Nat} {ref : String}
    {val : Value} {tbl : List String} {us : Bool}
    (h : ∀ rw ∈ rows, ∀ c ∈ rw.cells, P c.r → c.f = none) :
    ∀ rw ∈ (updateFirstRow rows n ref val tbl us).1, ∀ c ∈ rw.cells, P c.r → c.f = none := by
  induction rows generalizing tbl with
  | nil => simp [updateFirstRow]
  | cons r0 rows ih =>
    intro rw hrw
    by_cases he : r0.r = n
    · simp only [updateFirstRow, if_pos he] at hrw
      rcases List.mem_cons.mp hrw with rfl | h'
      · exact cellOp_ff (h r0 (List.mem_cons_self _ _))
      · exact h rw (List.mem_cons_of_mem _ h')
    · simp only [updateFirstRow, if_neg he] at hrw
      rcases List.mem_cons.mp hrw with rfl | h'
      · exact h rw (List.mem_cons_self _ _)
      · exact ih (fun y hy => h y (List.mem_cons_of_mem _ hy)) rw h'

theorem applyUpdate_ff {P : String → Prop} {rows : List Row} {u : String × Value}
    {tbl : List String} {us : Bool} {rows' : List Row} {tbl' : List String}
    (h : ∀ rw ∈ rows, ∀ c ∈ rw.cells, P c.r → c.f = none)
    (hr : applyUpdate rows u tbl us = .ok (rows', tbl')) :
    ∀ rw ∈ rows', ∀ c ∈ rw.cells, P c.r → c.f = none := by
  unfold applyUpdate at hr
  cases hn : getRowNumber u.1 with
  | error e => rw [hn] at hr; exact absurd hr (by simp)
  | ok n =>
    rw [hn] at hr
    have hq : rows' = (updateFirstRow (ensureRows rows n) n u.1 u.2 tbl us).1 :=
      (congrArg Prod.fst (Except.ok.inj hr)).symm
    rw [hq]
    refine updateFirstRow_ff ?_
    intro rw hrw
    unfold ensureRows at hrw
    by_cases hh : hasRowNum rows n = true
    · rw [if_pos hh] at hrw
      exact h rw hrw
    · rw [if_neg hh] at hrw
      rcases mem_insertRowSorted hrw with h' | rfl
      · exact h rw h'
      · intro c hc; exact absurd hc (List.not_mem_nil c)

/-! ### An update leaves every other cell readable unchanged -/

theorem updateFirstCell_find_ne {cs : List Cell} {ref ref' : String} {val : Value}
    {tbl : List String} {us : Bool} (hne : ref' ≠ ref) :
    (updateFirstCell cs ref val tbl us).1.find? (fun c => c.r = ref')
      = cs.find? (fun c => c.r = ref') := by
  induction cs generalizing tbl with
  | nil => rfl
  | cons c0 cs ih =>
    by_cases he : c0.r = ref
    · simp only [updateFirstCell, if_pos he]
      simp [List.find?_cons, setCellValue_r, he, Ne.symm hne]
    · simp only [updateFirstCell, if_neg he]
      by_cases hp : c0.r = ref'
      · simp [List.find?_cons, hp]
      · simp [List.find?_cons, hp, ih]

theorem cellOp_find_ne {cs : List Cell} {ref ref' : String} {val : Value}
    {tbl : List String} {us : Bool} (hne : ref' ≠ ref) :
    (cellOp cs ref val tbl us).1.find? (fun c => c.r = ref')
      = cs.find? (fun c => c.r = ref') := by
  unfold cellOp ensureCells
  by_cases hh : hasCellRef cs ref = true
  · rw [if_pos hh]
    exact updateFirstCell_find_ne hne
  · rw [if_neg hh]
    rw [updateFirstCell_find_ne hne]
    obtain ⟨pre, suf, hIns, hCs⟩ := insertCellSorted_split cs (blankCell ref)
    rw [hIns, find?_middle_skip _ (by simp [blankCell, Ne.symm hne]) pre suf, ← hCs]

theorem updateFirstRow_findRow_ne {rows : List Row} {n n' : Nat} {ref : String} {val : Value}
    {tbl : List String} {us : Bool} (hne : n' ≠ n) :
    findRow (updateFirstRow rows n ref val tbl us).1 n' = findRow rows n' := by
  induction rows generalizing tbl with
  | nil => rfl
  | cons r0 rows ih =>
    by_cases he : r0.r = n
    · simp only [updateFirstRow, if_pos he, findRow]
      simp [List.find?_cons, he, Ne.symm hne]
    · simp only [updateFirstRow, if_neg he, findRow]
      by_cases hp : r0.r = n'
      · simp [List.find?_cons, hp]
      · simpa [List.find?_cons, hp] using ih

theorem updateFirstRow_findRow_eq {rows : List Row} {n : Nat} {ref : String} {val : Value}
    {tbl : List String} {us : Bool} :
    findRow (updateFirstRow rows n ref val tbl us).1 n
      = (findRow rows n).map
          (fun rw => { rw with cells := (cellOp rw.cells ref val tbl us).1 }) := by
  induction rows generalizing tbl with
  | nil => rfl
  | cons r0 rows ih =>
    by_cases he : r0.r = n
    · simp only [updateFirstRow, if_pos he, findRow]
      simp [List.find?_cons, he]
    · simp only [updateFirstRow, if_neg he, findRow]
      simpa [List.find?_cons, he] using ih

theorem ensureRows_findRow_ne {rows : List Row} {n n' : Nat} (hne : n ≠ n') :
    findRow (ensureRows rows n) n' = findRow rows n' := by
  unfold ensureRows
  by_cases hh : hasRowNum rows n = true
  · rw [if_pos hh]
  · rw [if_neg hh]
    obtain ⟨pre, suf, hIns, hRows⟩ := insertRowSorted_split rows ⟨n, []⟩
    unfold findRow
    rw [hIns, find?_middle_skip _ (by simp [hne]) pre suf, ← hRows]

theorem applyUpdate_frame {rows : List Row} {ref ref' : String} {val : Value}
    {tbl tbl' : List String} {us : Bool} {rows' : List Row}
    (hne : ref' ≠ ref)
    (hr : applyUpdate rows (ref, val) tbl us = .ok (rows', tbl')) :
    readCell rows' ref' = readCell rows ref' := by
  unfold applyUpdate at hr
  cases hn : getRowNumber ref with
  | error e => rw [hn] at hr; exact absurd hr (by simp)
  | ok n =>
    rw [hn] at hr
    have hrows' : rows' = (updateFirstRow (ensureRows rows n) n ref val tbl us).1 :=
      (congrArg Prod.fst (Except.ok.inj hr)).symm
    rw [hrows']
    cases hn' : getRowNumber ref' with
    | error _ => simp [readCell, hn']
    | ok n' =>
      simp only [readCell, hn']
      by_cases hnn : n' = n
      · subst hnn
        rw [updateFirstRow_findRow_eq]
        by_cases hh : hasRowNum rows n' = true
        · have hens : ensureRows rows n' = rows := by unfold ensureRows; rw [if_pos hh]
          rw [hens]
          cases hfr : findRow rows n' with
          | none => rfl
          | some rw0 =>
            simp only [Option.map_some', Option.some_bind]
            unfold findCellInRow
            exact cellOp_find_ne hne
        · have hnone : findRow rows n' = none := by
            unfold findRow
            rw [List.find?_eq_none]
            intro rw0 hrw0
            simpa using hasRowNum_false (by simpa using hh) rw0 hrw0
          have hens : ensureRows rows n' = insertRowSorted rows ⟨n', []⟩ := by
            unfold ensureRows; rw [if_neg hh]
          rw [hens, hnone]
          obtain ⟨pre, suf, hIns, hRows⟩ := insertRowSorted_split rows ⟨n', []⟩
          have hpre : ∀ y ∈ pre, y.r ≠ n' := by
            intro y hy
            exact hasRowNum_false (by simpa using hh) y (by rw [hRows]; exact List.mem_append_left _ hy)
          have hfr2 : findRow (insertRowSorted rows ⟨n', []⟩) n' = some ⟨n', []⟩ := by
            unfold findRow
            rw [hIns]
            exact find?_first _ pre _ suf (fun y hy => by simpa using hpre y hy) (by simp)
          rw [hfr2]
          simp only [Option.map_some', Option.some_bind]
          unfold findCellInRow
          rw [cellOp_find_ne hne]
          rfl
      · rw [updateFirstRow_findRow_ne hnn, ensureRows_findRow_ne (fun h => hnn h.symm)]

/-! ### Formula cells are skipped wholesale -/

theorem updateFirstCell_formula_id {cs : List Cell} {ref : String} {val : Value}
    {tbl : List String} {us : Bool} {c : Cell}
    (hfind : cs.find? (fun c => c.r = ref) = some c) (hf : c.f.isSome = true) :
    updateFirstCell cs ref val tbl us = (cs, tbl) := by
  induction cs generalizing tbl with
  | nil => simp at hfind
  | cons c0 cs ih =>
    by_cases he : c0.r = ref
    · have hc0 : c0 = c := by simpa [List.find?_cons, he] using hfind
      have hset : setCellValue c0 val tbl us = (c0, tbl) := by
        unfold setCellValue
        rw [if_pos (hc0 ▸ hf)]
      simp [updateFirstCell, if_pos he, hset]
    · have hfind' : cs.find? (fun c => c.r = ref) = some c := by
        simpa [List.find?_cons, he] using hfind
      simp [updateFirstCell, if_neg he, ih hfind']

theorem cellOp_formula_id {cs : List Cell} {ref : String} {val : Value}
    {tbl : List String} {us : Bool} {c : Cell}
    (hfind : cs.find? (fun c => c.r = ref) = some c) (hf : c.f.isSome = true) :
    cellOp cs ref val tbl us = (cs, tbl) := by
  unfold cellOp ensureCells
  have hh : hasCellRef cs ref = true :=
    List.any_eq_true.mpr ⟨c, List.mem_of_find?_eq_some (p := fun c : Cell => c.r = ref) hfind,
      List.find?_some (p := fun c : Cell => c.r = ref) hfind⟩
  rw [if_pos hh]
  exact updateFirstCell_formula_id hfind hf

theorem updateFirstRow_cellOp_id {rows : List Row} {n : Nat} {ref : String} {val : Value}
    {tbl : List String} {us : Bool} {rw : Row}
    (hfind : findRow rows n = some rw)
    (hcell : cellOp rw.cells ref val tbl us = (rw.cells, tbl)) :
    updateFirstRow rows n ref val tbl us = (rows, tbl) := by
  induction rows generalizing tbl with
  | nil => simp [findRow] at hfind
  | cons r0 rows ih =>
    by_cases he : r0.r = n
    · have hr0 : r0 = rw := by simpa [findRow, List.find?_cons, he] using hfind
      subst hr0
      simp only [updateFirstRow, if_pos he, hcell]
    · have hfind' : findRow rows n = some rw := by
        simpa [findRow, List.find?_cons, he] using hfind
      simp [updateFirstRow, if_neg he, ih hfind' hcell]

/-- Claim C3: an update whose target cell already carries a formula leaves
the whole worksheet and the shared-string table unchanged and raises no
error: the patch call succeeds and returns its input. -/
theorem claim_formula_cells_skipped {rows : List Row} {ref : String} {val : Value}
    {tbl : List String} {us : Bool} {n : Nat} {rw : Row} {c : Cell} {fb : String}
    (hn : getRowNumber ref = .ok n)
    (hrow : findRow rows n = some rw)
    (hcell : findCellInRow rw ref = some c)
    (hf : c.f = some fb) :
    updateCells rows [(ref, val)] tbl us = .ok (rows, tbl) := by
  have hcellop : cellOp rw.cells ref val tbl us = (rw.cells, tbl) :=
    cellOp_formula_id hcell (by rw [hf]; rfl)
  have hh : hasRowNum rows n = true :=
    List.any_eq_true.mpr ⟨rw, List.mem_of_find?_eq_some (p := fun rw : Row => rw.r = n) hrow,
      List.find?_some (p := fun rw : Row => rw.r = n) hrow⟩
  have hens : ensureRows rows n = rows := by
    unfold ensureRows
    rw [if_pos hh]
  have hufr : updateFirstRow rows n ref val tbl us = (rows, tbl) :=
    updateFirstRow_cellOp_id hrow hcellop
  simp [updateCells, applyUpdate, hn, hens, hufr]

/-- Claim C3 witness: updating formula cell "B3" (formula SUM(A1:A2),
cached value 42) leaves the worksheet byte-identical and returns
successfully. -/
theorem claim_formula_cells_skipped_witness :
    updateCells [⟨3, [⟨"B3", none, some "SUM(A1:A2)", some "42", none⟩]⟩]
        [("B3", Value.s "x")] [] true
      = .ok ([⟨3, [⟨"B3", none, some "SUM(A1:A2)", some "42", none⟩]⟩], []) :=
  claim_formula_cells_skipped rfl rfl rfl rfl

/-! ### Shared-string table lemmas -/

theorem pyIndex_append_self {tbl : List String} {s : String} (h : s ∉ tbl) :
    pyIndex (tbl ++ [s]) s = tbl.length := by
  induction tbl with
  | nil => simp [pyIndex]
  | cons a tbl ih =>
    have ha : ¬ (a = s) := by
      rintro rfl
      exact h (List.mem_cons_self _ _)
    simp [pyIndex, ha, ih (fun hm => h (List.mem_cons_of_mem _ hm))]

theorem getElem?_pyIndex {tbl : List String} {s : String} (h : s ∈ tbl) :
    tbl[pyIndex tbl s]? = some s := by
  induction tbl with
  | nil => simp at h
  | cons a tbl ih =>
    by_cases ha : a = s
    · simp [pyIndex, ha]
    · have h' : s ∈ tbl := by
        rcases List.mem_cons.mp h with rfl | h'
        · exact absurd rfl ha
        · exact h'
      simp [pyIndex, ha, ih h']

/-- Claim C5: writing the same text to two distinct non-formula
coordinates in one patch call (shared strings enabled, duplicate-free
initial table) makes both cells shared-string typed with the same index,
and the final table holds exactly one entry with that text, at that
index. -/
theorem claim_shared_string_dedup
    (rows : List Row) (tbl : List String) (c1 c2 sv : String) {n1 n2 : Nat}
    {rows₂ : List Row} {tbl₂ : List String}
    (hcc : c1 ≠ c2)
    (h1 : getRowNumber c1 = .ok n1)
    (h2 : getRowNumber c2 = .ok n2)
    (hnd : tbl.Nodup)
    (hff : ∀ rw ∈ rows, ∀ c ∈ rw.cells, c.r = c1 ∨ c.r = c2 → c.f = none)
    (hrun : updateCells rows [(c1, Value.s sv), (c2, Value.s sv)] tbl true
      = .ok (rows₂, tbl₂)) :
    ∃ i : Nat,
      readCell rows₂ c1 = some ⟨c1, some "s", none, some (toString i), none⟩ ∧
      readCell rows₂ c2 = some ⟨c2, some "s", none, some (toString i), none⟩ ∧
      tbl₂[i]? = some sv ∧ List.count sv tbl₂ = 1 := by
  have hff1 : ∀ rw ∈ rows, ∀ c ∈ rw.cells, c.r = c1 → c.f = none :=
    fun rw hrw c hc h => hff rw hrw c hc (Or.inl h)
  obtain ⟨rows₁, hA1, hread1⟩ :=
    applyUpdate_writes (Value.s sv) tbl true h1 hff1
  have hffP : ∀ rw ∈ rows₁, ∀ c ∈ rw.cells, c.r = c1 ∨ c.r = c2 → c.f = none :=
    applyUpdate_ff (P := fun r => r = c1 ∨ r = c2) hff hA1
  have hff2 : ∀ rw ∈ rows₁, ∀ c ∈ rw.cells, c.r = c2 → c.f = none :=
    fun rw hrw c hc h => hffP rw hrw c hc (Or.inr h)
  obtain ⟨rows₂', hA2, hread2⟩ :=
    applyUpdate_writes (Value.s sv) (valueRepr (Value.s sv) tbl true).2.2 true h2 hff2
  simp only [updateCells, hA1, hA2] at hrun
  have hpair := Except.ok.inj hrun
  have hrows : rows₂' = rows₂ := congrArg Prod.fst hpair
  have htbl : (valueRepr (Value.s sv) (valueRepr (Value.s sv) tbl true).2.2 true).2.2 = tbl₂ :=
    congrArg Prod.snd hpair
  have hframe : readCell rows₂' c1 = readCell rows₁ c1 := applyUpdate_frame hcc hA2
  by_cases hm : sv ∈ tbl
  · have hv1 : valueRepr (Value.s sv) tbl true
        = (some "s", toString (pyIndex tbl sv), tbl) := by
      simp [valueRepr, isNumericNonBool, pyStr, hm]
    refine ⟨pyIndex tbl sv, ?_, ?_, ?_, ?_⟩
    · rw [← hrows, hframe, hread1, hv1]
    · rw [← hrows, hread2, hv1, hv1]
    · rw [← htbl, hv1, hv1]
      exact getElem?_pyIndex hm
    · rw [← htbl, hv1, hv1]
      exact List.count_eq_one_of_mem hnd hm
  · have hv1 : valueRepr (Value.s sv) tbl true
        = (some "s", toString tbl.length, tbl ++ [sv]) := by
      simp [valueRepr, isNumericNonBool, pyStr, hm]
    have hm2 : sv ∈ tbl ++ [sv] := List.mem_append_right _ (List.mem_cons_self _ _)
    have hv2 : valueRepr (Value.s sv) (tbl ++ [sv]) true
        = (some "s", toString (pyIndex (tbl ++ [sv]) sv), tbl ++ [sv]) := by
      simp [valueRepr, isNumericNonBool, pyStr, hm2]
    refine ⟨tbl.length, ?_, ?_, ?_, ?_⟩
    · rw [← hrows, hframe, hread1, hv1]
    · rw [← hrows, hread2, hv1, hv2, pyIndex_append_self hm]
    · rw [← htbl, hv1, hv2, pyIndex_append_self hm, ← pyIndex_append_self hm]
      exact getElem?_pyIndex hm2
    · rw [← htbl, hv1, hv2]
      rw [List.count_append]
      rw [List.count_eq_zero.mpr hm]
      simp

/-- Claim C5 witness: writing "Hi" to both "A1" and "B1" on an empty sheet
with an empty shared-string table yields both cells referencing index 0 of
a one-entry table. -/
theorem claim_shared_string_dedup_witness :
    ∃ i : Nat,
      readCell [⟨1, [⟨"A1", some "s", none, some "0", none⟩,
                     ⟨"B1", some "s", none, some "0", none⟩]⟩] "A1"
        = some ⟨"A1", some "s", none, some (toString i), none⟩ ∧
      readCell [⟨1, [⟨"A1", some "s", none, some "0", none⟩,
                     ⟨"B1", some "s", none, some "0", none⟩]⟩] "B1"
        = some ⟨"B1", some "s", none, some (toString i), none⟩ ∧
      (["Hi"] : List String)[i]? = some "Hi" ∧
      List.count "Hi" ["Hi"] = 1 :=
  claim_shared_string_dedup [] [] "A1" "B1" "Hi"
    (by decide) rfl rfl (by simp) (by simp) rfl

/-! ### The string table grows append-only -/

theorem updateCells_table_append {ups : List (String × Value)} :
    ∀ {rows : List Row} {tbl : List String} {rows' : List Row} {tbl' : List String},
      (stringWrites ups).Nodup →
      (∀ s ∈ stringWrites ups, s ∉ tbl) →
      (∀ rw ∈ rows, ∀ c ∈ rw.cells, (∃ u ∈ ups, u.1 = c.r) → c.f = none) →
      updateCells rows ups tbl true = .ok (rows', tbl') →
      tbl' = tbl ++ stringWrites ups := by
  induction ups with
  | nil =>
    intro rows tbl rows' tbl' _ _ _ hrun
    simp only [updateCells] at hrun
    have h2 : tbl = tbl' := congrArg Prod.snd (Except.ok.inj hrun)
    simp [stringWrites, ← h2]
  | cons u ups ih =>
    intro rows tbl rows' tbl' hnd hnew hff hrun
    obtain ⟨uref, uval⟩ := u
    cases hn : getRowNumber uref with
    | error e =>
      have hA : applyUpdate rows (uref, uval) tbl true = .error e := by
        simp only [applyUpdate, hn]
      simp only [updateCells, hA] at hrun
      exact Except.noConfusion hrun
    | ok n =>
      have hffu : ∀ rw ∈ rows, ∀ c ∈ rw.cells, c.r = uref → c.f = none := by
        intro rw hrw c hc h
        exact hff rw hrw c hc ⟨(uref, uval), List.mem_cons_self _ _, h.symm⟩
      obtain ⟨rows₁, hA, _⟩ := applyUpdate_writes uval tbl true hn hffu
      simp only [updateCells, hA] at hrun
      have hP := applyUpdate_ff (P := fun r => ∃ v ∈ (uref, uval) :: ups, v.1 = r) hff hA
      have hffn : ∀ rw ∈ rows₁, ∀ c ∈ rw.cells, (∃ v ∈ ups, v.1 = c.r) → c.f = none := by
        intro rw hrw c hc hv
        obtain ⟨v, hvm, hveq⟩ := hv
        exact hP rw hrw c hc ⟨v, List.mem_cons_of_mem _ hvm, hveq⟩
      by_cases hnum : isNumericNonBool uval = true
      · have hsw : stringWrites ((uref, uval) :: ups) = stringWrites ups := by
          simp [stringWrites, hnum]
        have hv : (valueRepr uval tbl true).2.2 = tbl := by
          simp [valueRepr, hnum]
        rw [hv] at hrun
        rw [hsw]
        refine ih ?_ ?_ hffn hrun
        · rw [hsw] at hnd; exact hnd
        · intro s hs
          exact hnew s (by rw [hsw]; exact hs)
      · have hsw : stringWrites ((uref, uval) :: ups) = pyStr uval :: stringWrites ups := by
          simp [stringWrites, hnum]
        have hnotin : pyStr uval ∉ tbl := by
          apply hnew
          rw [hsw]
          exact List.mem_cons_self _ _
        have hv : (valueRepr uval tbl true).2.2 = tbl ++ [pyStr uval] := by
          simp [valueRepr, hnum, hnotin]
        rw [hv] at hrun
        have hndc := List.nodup_cons.mp (by rw [hsw] at hnd; exact hnd)
        have hnew' : ∀ s ∈ stringWrites ups, s ∉ tbl ++ [pyStr uval] := by
          intro s hs hmem
          rcases List.mem_append.mp hmem with hmem | hmem
          · exact hnew s (by rw [hsw]; exact List.mem_cons_of_mem _ hs) hmem
          · have hseq : s = pyStr uval := by simpa using hmem
            exact hndc.1 (hseq ▸ hs)
        have hres := ih hndc.2 hnew' hffn hrun
        rw [hsw, hres, List.append_assoc]
        rfl

/-- Claim C6: a patch call writing distinct strings none of which are
already in the shared-string table appends exactly those strings at the
end, in request order, and leaves every pre-existing table position (hence
every pre-existing index) unchanged. -/
theorem claim_new_strings_appended
    (rows : List Row) (ups : List (String × Value)) (tbl : List String)
    {rows' : List Row} {tbl' : List String}
    (hnd : (stringWrites ups).Nodup)
    (hnew : ∀ s ∈ stringWrites ups, s ∉ tbl)
    (hff : ∀ rw ∈ rows, ∀ c ∈ rw.cells, (∃ u ∈ ups, u.1 = c.r) → c.f = none)
    (hrun : updateCells rows ups tbl true = .ok (rows', tbl')) :
    tbl' = tbl ++ stringWrites ups ∧
    ∀ i, i < tbl.length → tbl'[i]? = tbl[i]? := by
  have h := updateCells_table_append hnd hnew hff hrun
  exact ⟨h, fun i hi => by rw [h, List.getElem?_append_left hi]⟩

/-- Claim C6 witness: writing "x" then "y" to an empty sheet with initial
table ["pre"] appends them in order and keeps index 0 pointing at
"pre". -/
theorem claim_new_strings_appended_witness :
    (["pre", "x", "y"] : List String)
        = ["pre"] ++ stringWrites [("A1", Value.s "x"), ("B2", Value.s "y")] ∧
    ∀ i, i < (["pre"] : List String).length →
      (["pre", "x", "y"] : List String)[i]? = (["pre"] : List String)[i]? :=
  claim_new_strings_appended [] [("A1", Value.s "x"), ("B2", Value.s "y")] ["pre"]
    (by decide) (by decide) (by simp) rfl

/-- Claim C9: a boolean-valued update takes the string path: the patched
cell is typed as a shared string or an inline string, never left as a
plain numeric cell. -/
theorem claim_bool_takes_string_path
    (rows : List Row) (tbl : List String) (us : Bool) (ref : String) (b : Bool)
    {n : Nat} {rows' : List Row} {tbl' : List String}
    (hn : getRowNumber ref = .ok n)
    (hff : ∀ rw ∈ rows, ∀ c ∈ rw.cells, c.r = ref → c.f = none)
    (hrun : updateCells rows [(ref, Value.b b)] tbl us = .ok (rows', tbl')) :
    ∃ c : Cell, readCell rows' ref = some c ∧ (c.t = some "s" ∨ c.t = some "str") := by
  obtain ⟨rows'', hA, hread⟩ :=
    applyUpdate_writes (Value.b b) tbl us hn hff
  simp only [updateCells, hA] at hrun
  have hr : rows'' = rows' := congrArg Prod.fst (Except.ok.inj hrun)
  subst hr
  refine ⟨_, hread, ?_⟩
  by_cases hus : us = true
  · subst hus
    by_cases hm : pyBoolStr b ∈ tbl <;>
      simp [valueRepr, isNumericNonBool, pyStr, hm]
  · have hf : us = false := by simpa using hus
    subst hf
    simp [valueRepr, isNumericNonBool]

/-- Claim C9 witness: writing Python True to the blank cell "A1" with no
shared-string table produces an inline-string-typed cell holding
"True". -/
theorem claim_bool_takes_string_path_witness :
    ∃ c : Cell,
      readCell [⟨1, [⟨"A1", some "str", none, some "True", none⟩]⟩] "A1" = some c ∧
      (c.t = some "s" ∨ c.t = some "str") :=
  claim_bool_takes_string_path [⟨1, [⟨"A1", none, none, none, none⟩]⟩]
    [] false "A1" true rfl (by decide) rfl

/-! ### The copy loop leaves untouched parts identical -/

theorem emitParts_frame :
    ∀ {parts : Package} {sp : String} {ups : List (String × Value)} {tbl : List String}
      {us : Bool} {out : Package} {tblF : List String},
      emitParts parts sp ups tbl us = .ok (out, tblF) →
      out.map Prod.fst = parts.map Prod.fst ∧
      ∀ (i : Nat) (p : String × Content), parts[i]? = some p → p.1 ≠ sp →
        p.1 ≠ "xl/sharedStrings.xml" → out[i]? = some p := by
  intro parts
  induction parts with
  | nil =>
    intro sp ups tbl us out tblF h
    simp only [emitParts] at h
    have h1 : ([] : Package) = out := congrArg Prod.fst (Except.ok.inj h)
    constructor
    · rw [← h1]
    · intro i p hp
      simp at hp
  | cons part rest ih =>
    intro sp ups tbl us out tblF h
    obtain ⟨nm, c⟩ := part
    by_cases hsp : nm = sp
    · cases c with
      | ws rows =>
        simp only [emitParts, if_pos hsp] at h
        cases hu : updateCells rows ups tbl us with
        | error e =>
          simp only [hu] at h
          exact Except.noConfusion h
        | ok p =>
          simp only [hu] at h
          cases he : emitParts rest sp ups p.2 us with
          | error e =>
            simp only [he] at h
            exact Except.noConfusion h
          | ok q =>
            simp only [he] at h
            have hout : (nm, Content.ws p.1) :: q.1 = out := congrArg Prod.fst (Except.ok.inj h)
            obtain ⟨hmap, hidx⟩ := ih he
            constructor
            · rw [← hout]
              simp [hmap]
            · intro i pp hp hne1 hne2
              rw [← hout]
              cases i with
              | zero =>
                have hpp : ((nm, Content.ws rows) : String × Content) = pp := by simpa using hp
                exact absurd (hsp ▸ congrArg Prod.fst hpp.symm) hne1
              | succ j =>
                simpa using hidx j pp (by simpa using hp) hne1 hne2
      | wb sheets =>
        simp only [emitParts, if_pos hsp] at h
        exact Except.noConfusion h
      | rels entries =>
        simp only [emitParts, if_pos hsp] at h
        exact Except.noConfusion h
      | sst x =>
        simp only [emitParts, if_pos hsp] at h
        exact Except.noConfusion h
      | blob id =>
        simp only [emitParts, if_pos hsp] at h
        exact Except.noConfusion h
    · by_cases hss : nm = "xl/sharedStrings.xml" ∧ tbl ≠ []
      · simp only [emitParts, if_neg hsp, if_pos hss] at h
        cases he : emitParts rest sp ups tbl us with
        | error e => rw [he] at h; exact Except.noConfusion h
        | ok q =>
          rw [he] at h
          have hout : (nm, Content.sst (rebuildSharedStrings tbl)) :: q.1 = out :=
            congrArg Prod.fst (Except.ok.inj h)
          obtain ⟨hmap, hidx⟩ := ih he
          constructor
          · rw [← hout]
            simp [hmap]
          · intro i pp hp hne1 hne2
            rw [← hout]
            cases i with
            | zero =>
              have hpp : ((nm, c) : String × Content) = pp := by simpa using hp
              exact absurd (hss.1 ▸ congrArg Prod.fst hpp.symm) hne2
            | succ j =>
              simpa using hidx j pp (by simpa using hp) hne1 hne2
      · simp only [emitParts, if_neg hsp, if_neg hss] at h
        cases he : emitParts rest sp ups tbl us with
        | error e => rw [he] at h; exact Except.noConfusion h
        | ok q =>
          rw [he] at h
          have hout : (nm, c) :: q.1 = out := congrArg Prod.fst (Except.ok.inj h)
          obtain ⟨hmap, hidx⟩ := ih he
          constructor
          · rw [← hout]
            simp [hmap]
          · intro i pp hp hne1 hne2
            rw [← hout]
            cases i with
            | zero => simpa using hp
            | succ j =>
              simpa using hidx j pp (by simpa using hp) hne1 hne2

/-- Claim C1 (amended): every part of the output other than the targeted
worksheet part and the shared-strings part is identical to the input part
at the same position, and part names and their order are preserved; the
shared-strings part itself may be re-serialized (and so differ) even when
no new string was introduced. -/
theorem claim_untouched_parts_identical
    (pkg : Package) (ups : List (String × Value)) (sn : Option String)
    {out : Package} {sp : String}
    (hsp : resolveTargetPath pkg sn = .ok sp)
    (hrun : generate pkg ups sn = .ok out) :
    out.map Prod.fst = pkg.map Prod.fst ∧
    ∀ (i : Nat) (p : String × Content), pkg[i]? = some p → p.1 ≠ sp →
      p.1 ≠ "xl/sharedStrings.xml" → out[i]? = some p := by
  unfold generate at hrun
  by_cases hemp : ups.isEmpty = true
  · rw [if_pos hemp] at hrun
    exact Except.noConfusion hrun
  · rw [if_neg hemp] at hrun
    cases hls : loadSharedStrings pkg with
    | error e =>
      simp only [hsp, hls] at hrun
      exact Except.noConfusion hrun
    | ok st =>
      cases hem : emitParts pkg sp ups st.2 st.1 with
      | error e =>
        simp only [hsp, hls, hem] at hrun
        exact Except.noConfusion hrun
      | ok q =>
        simp only [hsp, hls, hem] at hrun
        have hq : q.1 = out := Except.ok.inj hrun
        obtain ⟨hmap, hidx⟩ := emitParts_frame hem
        exact ⟨hq ▸ hmap, fun i p hp h1 h2 => hq ▸ hidx i p hp h1 h2⟩

/-- Claim C1 witness: for the concrete run on `pkgC1`, the untouched
part [Content_Types].xml is emitted identically at position 0. -/
theorem claim_untouched_parts_identical_witness :
    outC1[0]? = some ("[Content_Types].xml", Content.blob 0) :=
  (claim_untouched_parts_identical pkgC1 [("A1", Value.i 42)] none
      rfl rfl).2 0
    ("[Content_Types].xml", Content.blob 0) rfl (by decide) (by decide)

end Avion
